import Mathlib

/-
Verification of the request-dispatch and scoring core of the REAL evaluation
harness. Python sources are shallowly embedded: pure functions become Lean
functions, fallible code returns Option or Except, and the asynchronous
parts are modelled by explicit completion orders and event traces.
-/

/- Sentinel strings, taken verbatim from the source. -/

-- src/request_manager/request_manager.py line 12
def FALLBACK_ERR_MSG : String := "Unknown error in processing request"

-- src/text_preprocessors.py lines 15-16
def THINK_FAILED_MSG : String := "Thinking process failed."

def ANSWER_FAILED_MSG : String := "No valid answer field was found. Fall back to false."

-- src/request_manager/api_actions.py line 154
def NONE_CONTENT_ERROR_MSG : String := "Received None content."

-- src/judgers/presets.py line 13
def JUDGE_FAILED_MSG : String := "Judge failed."

/- Embedding of preprocess_pipeline, src/text_preprocessors.py lines 371-384.
The Python loop walks the preprocessor tuple; on a failure-flag state it
returns the state, on an empty state it returns "", otherwise it applies the
next stage. -/

def preprocess_pipeline (str_to_preprocess : String) (preprocessors : List (String → String)) : String :=
  match preprocessors with
  | [] => str_to_preprocess
  | func :: rest =>
    if str_to_preprocess = THINK_FAILED_MSG ∨ str_to_preprocess = ANSWER_FAILED_MSG ∨ str_to_preprocess = NONE_CONTENT_ERROR_MSG then
      str_to_preprocess
    else if str_to_preprocess ≠ "" then
      preprocess_pipeline (func str_to_preprocess) rest
    else ""

lemma preprocess_pipeline_flag (ps : List (String → String)) (s : String)
    (hflag : s = THINK_FAILED_MSG ∨ s = ANSWER_FAILED_MSG ∨ s = NONE_CONTENT_ERROR_MSG) :
    preprocess_pipeline s ps = s := by
  cases ps with
  | nil => rfl
  | cons f rest => simp [preprocess_pipeline, hflag]

lemma preprocess_pipeline_empty (ps : List (String → String)) :
    preprocess_pipeline "" ps = "" := by
  cases ps with
  | nil => rfl
  | cons f rest =>
    have h1 : ¬ (("" : String) = THINK_FAILED_MSG ∨ ("" : String) = ANSWER_FAILED_MSG ∨ ("" : String) = NONE_CONTENT_ERROR_MSG) := by
      decide
    simp [preprocess_pipeline, h1]

/-- C10: preprocess_pipeline preserves the failure markers: a flag input or an
empty input skips every remaining stage and is returned unchanged, and a stage
that produces "" short-circuits the rest of the pipeline, yielding "". -/
theorem preprocess_pipeline_preserves_failure_markers
    (ps rest : List (String → String)) (s t : String) (f : String → String)
    (hflag : s = THINK_FAILED_MSG ∨ s = ANSWER_FAILED_MSG ∨ s = NONE_CONTENT_ERROR_MSG)
    (ht : t ≠ THINK_FAILED_MSG ∧ t ≠ ANSWER_FAILED_MSG ∧ t ≠ NONE_CONTENT_ERROR_MSG ∧ t ≠ "")
    (hf : f t = "") :
    preprocess_pipeline s ps = s
  ∧ preprocess_pipeline "" ps = ""
  ∧ preprocess_pipeline t (f :: rest) = "" := by
  refine ⟨preprocess_pipeline_flag ps s hflag, preprocess_pipeline_empty ps, ?_⟩
  obtain ⟨h1, h2, h3, h4⟩ := ht
  have hnot : ¬ (t = THINK_FAILED_MSG ∨ t = ANSWER_FAILED_MSG ∨ t = NONE_CONTENT_ERROR_MSG) := by
    simp [h1, h2, h3]
  simp [preprocess_pipeline, hnot, h4, hf, preprocess_pipeline_empty]

/-- Witness for C10, with the think-failed flag, an input "abc", and a stage
that maps everything to the empty string. -/
theorem preprocess_pipeline_preserves_failure_markers_witness :
    preprocess_pipeline THINK_FAILED_MSG [fun s => s ++ "x"] = THINK_FAILED_MSG
  ∧ preprocess_pipeline "" [fun s => s ++ "x"] = ""
  ∧ preprocess_pipeline "abc" ((fun _ => "") :: [fun s => s ++ "x"]) = "" :=
  preprocess_pipeline_preserves_failure_markers [fun s => s ++ "x"] [fun s => s ++ "x"]
    THINK_FAILED_MSG "abc" (fun _ => "") (Or.inl rfl) (by decide) rfl

/- Embedding of _TEXT_SIMILARITY, src/judgers/presets.py lines 36-132.
The Python code fills a (ROWS+1) x (COLUMNS+1) matrix: column 0 holds r,
row 0 holds c, and each inner cell is the classic Levenshtein recurrence.
The fill order respects the data dependencies, so the matrix entry at
(r, c) is exactly the recursive function below. -/

def opm (response answer : List Char) : Nat → Nat → Nat
  | r, 0 => r
  | 0, c + 1 => c + 1
  | r + 1, c + 1 =>
    if response.getD r ' ' = answer.getD c ' ' then
      opm response answer r c
    else
      min (min (opm response answer r (c + 1)) (opm response answer (r + 1) c))
        (opm response answer r c) + 1

/- The final line of _TEXT_SIMILARITY is
1 - operation_matrix[ROWS][COLUMNS] / max(ROWS, COLUMNS).
Python integer division by zero raises ZeroDivisionError; the embedding
returns none in that case (both strings empty) and the exact rational
otherwise. -/
def _TEXT_SIMILARITY (response answer : String) : Option ℚ :=
  let ROWS := response.length
  let COLUMNS := answer.length
  if max ROWS COLUMNS = 0 then none
  else some (1 - (opm response.data answer.data ROWS COLUMNS : ℚ) / (max ROWS COLUMNS : ℚ))

/- TEXT_SIMILARITY (presets.py lines 28-34) awaits _TEXT_SIMILARITY on a
thread and returns its value unchanged. -/
def TEXT_SIMILARITY (response answer : String) : Option ℚ :=
  _TEXT_SIMILARITY response answer

lemma opm_diag (s : List Char) : ∀ r, opm s s r r = 0 := by
  intro r
  induction r with
  | zero => simp [opm]
  | succ n ih => simp [opm, ih]

/-- C6 counterexample: on the empty string the claim fails. The denominator
max(len, len) is 0, so the Python code raises ZeroDivisionError instead of
returning 1.0 (modelled as none). -/
theorem TEXT_SIMILARITY_empty_self_raises :
    TEXT_SIMILARITY "" "" = none ∧ TEXT_SIMILARITY "" "" ≠ some 1 := by
  constructor
  · rfl
  · intro h
    simp [TEXT_SIMILARITY, _TEXT_SIMILARITY] at h

/-- C6 amended: for every nonempty string s, TEXT_SIMILARITY of s with itself
is exactly 1; the pipeline of the diagonal of the operation matrix is 0. -/
theorem TEXT_SIMILARITY_self_eq_one (s : String) (h : s.length ≠ 0) :
    TEXT_SIMILARITY s s = some 1 := by
  have hmax : max s.length s.length = s.length := by simp
  have hd := opm_diag s.data s.length
  simp only [TEXT_SIMILARITY, _TEXT_SIMILARITY, hmax, h, if_false, hd]
  norm_num

/-- Witness for C6 amended, at s = "a". -/
theorem TEXT_SIMILARITY_self_eq_one_witness :
    TEXT_SIMILARITY "a" "a" = some 1 :=
  TEXT_SIMILARITY_self_eq_one "a" (by decide)

/- Embedding of extract_content and _process_request,
src/request_manager/api_actions.py lines 156-174 and
src/request_manager/request_manager.py lines 57-94. -/

inductive Json
| null
| str (s : String)
| num (n : Int)
| arr (items : List Json)
| obj (fields : List (String × Json))

/- Python bracket access d[k] for a string key: only a dict succeeds; a
missing key raises KeyError and every other receiver raises TypeError, both
modelled as none. -/
def jsonGet : Json → String → Option Json
  | .obj fields, k => (fields.find? (fun p => p.1 == k)).map (fun p => p.2)
  | _, _ => none

/- Python bracket access x[i] for an int index: a list indexes (IndexError
when out of range), a string yields a one-character string, a dict raises
KeyError for the int key, other receivers raise TypeError. -/
def jsonIdx : Json → Nat → Option Json
  | .arr items, i => items.get? i
  | .str s, i => (s.data.get? i).map (fun ch => Json.str (String.mk [ch]))
  | _, _ => none

/- extract_content: msg = OAI_response["choices"][0]["message"]["content"];
TypeError, KeyError and IndexError give msg = ""; a None content raises
ValueError, caught to give NONE_CONTENT_ERROR_MSG; any other value is
returned as is. -/
def extract_content (OAI_response : Json) : Json :=
  match ((((jsonGet OAI_response "choices").bind (fun c => jsonIdx c 0)).bind
      (fun ch => jsonGet ch "message")).bind (fun m => jsonGet m "content")) with
  | none => .str ""
  | some .null => .str NONE_CONTENT_ERROR_MSG
  | some v => v

/- The def at api_actions.py line 156 takes exactly one parameter,
OAI_response. -/
def extract_content_param_count : Nat := 1

/- The call site at request_manager.py line 80 passes two positional
arguments: extract_content(response, enable_metrics). -/
def extract_content_args_given : Nat := 2

/- Python call semantics: when the number of positional arguments given does
not match the parameter count, the call raises TypeError (modelled as
Except.error). -/
def call_extract_content (r : Json) : Except Unit Json :=
  if extract_content_args_given = extract_content_param_count then
    .ok (extract_content r)
  else
    .error ()

/- The result of one request inside a batch: either the message content
returned by extract_content, or the FALLBACK payload that carries
FALLBACK_ERR_MSG (plus zeroed token counters when metrics are enabled). -/
inductive ProcResult
| msg (m : Json)
| fallback (withMetrics : Bool)

/- Python truthiness of the value bound by `if response:` in
_process_request. -/
def Json.isTruthy : Json → Bool
  | .null => false
  | .str s => !(s == "")
  | .num n => !(n == 0)
  | .arr items => !items.isEmpty
  | .obj fields => !fields.isEmpty

/- _process_request body (request_manager.py lines 70-94): the transport
outcome is the value do_request_on returned (none models the None returned
after exhausted retries); a truthy response is fed to extract_content with
two arguments; any exception, including the TypeError from the arity
mismatch, is caught by the broad except and the FALLBACK dict is returned. -/
def _process_request (response : Option Json) (enable_metrics : Bool) : ProcResult :=
  match response with
  | none => .fallback enable_metrics
  | some r =>
    if r.isTruthy then
      match call_extract_content r with
      | .ok m => .msg m
      | .error _ => .fallback enable_metrics
    else .fallback enable_metrics

/- A 200-status chat-completion body whose first choice holds the assistant
message "hello". -/
def sample_ok_body : Json :=
  .obj [("choices", .arr [.obj [("message", .obj [("content", .str "hello")])]])]

/-- C1: the dispatcher result for a successful well-formed exchange. The code
calls extract_content with two positional arguments while its def takes one,
so the call raises TypeError and the broad except returns the fallback
payload: the extracted text "hello" is never returned. This contradicts the
claim and the docstrings, which promise the assistant message text. -/
theorem process_request_returns_fallback_on_valid_body :
    extract_content sample_ok_body = .str "hello"
  ∧ _process_request (some sample_ok_body) false = .fallback false
  ∧ _process_request (some sample_ok_body) false ≠ .msg (.str "hello") := by
  refine ⟨rfl, rfl, ?_⟩
  intro h
  have hf : _process_request (some sample_ok_body) false = .fallback false := rfl
  rw [hf] at h
  exact ProcResult.noConfusion h

/- Embedding of process_batch, src/request_manager/request_manager.py lines
30-44. One task is created per request, indexed by position; asyncio.gather
collects results positionally, not by completion order. The completion order
is modelled as a list of task indices; each completion writes the result of
task j into slot j. -/

def gatherFill (slots : List (Option α)) (res : Nat → α) (order : List Nat) : List (Option α) :=
  order.foldl (fun acc j => acc.set j (some (res j))) slots

def process_batch (request_list : List String) (transport : Nat → String → α)
    (order : List Nat) : List (Option α) :=
  gatherFill (List.replicate request_list.length none)
    (fun i => transport i (request_list.getD i "")) order

lemma gatherFill_cons (slots : List (Option α)) (res : Nat → α) (j : Nat) (rest : List Nat) :
    gatherFill slots res (j :: rest) = gatherFill (slots.set j (some (res j))) res rest := rfl

lemma gatherFill_length (res : Nat → α) (order : List Nat) :
    ∀ slots : List (Option α), (gatherFill slots res order).length = slots.length := by
  induction order with
  | nil => intro slots; rfl
  | cons j rest ih =>
    intro slots
    rw [gatherFill_cons, ih]
    simp

lemma gatherFill_not_mem (res : Nat → α) (order : List Nat) (i : Nat) (hi : i ∉ order) :
    ∀ slots : List (Option α), (gatherFill slots res order).get? i = slots.get? i := by
  induction order with
  | nil => intro slots; rfl
  | cons j rest ih =>
    intro slots
    have hij : j ≠ i := fun h => hi (h ▸ List.mem_cons_self j rest)
    have hrest : i ∉ rest := fun h => hi (List.mem_cons_of_mem j h)
    rw [gatherFill_cons, ih hrest]
    exact List.get?_set_ne (some (res j)) slots hij

lemma gatherFill_mem (res : Nat → α) (order : List Nat) (i : Nat) (hi : i ∈ order) :
    ∀ slots : List (Option α), i < slots.length →
      (gatherFill slots res order).get? i = some (some (res i)) := by
  induction order with
  | nil => cases hi
  | cons j rest ih =>
    intro slots hlen
    rw [gatherFill_cons]
    by_cases hr : i ∈ rest
    · exact ih hr _ (by simpa using hlen)
    · have hij : i = j := by
        rcases List.mem_cons.mp hi with h | h
        · exact h
        · exact absurd h hr
      subst hij
      rw [gatherFill_not_mem res rest i hr]
      exact List.get?_set_eq_of_lt (some (res i)) hlen

/-- C2: for every request list and every completion order that is a
permutation of the task indices, process_batch yields a list of the same
length as the input in which slot i holds the transport result for request i,
independently of the completion order. -/
theorem process_batch_preserves_order (request_list : List String)
    (transport : Nat → String → α) (order : List Nat)
    (h : order.Perm (List.range request_list.length)) :
    (process_batch request_list transport order).length = request_list.length
  ∧ ∀ i, i < request_list.length →
      (process_batch request_list transport order).get? i
        = some (some (transport i (request_list.getD i ""))) := by
  constructor
  · simp [process_batch, gatherFill_length]
  · intro i hi
    have hmem : i ∈ order := h.mem_iff.mpr (List.mem_range.mpr hi)
    exact gatherFill_mem _ order i hmem _ (by simpa using hi)

/-- Witness for C2: two requests completing in reverse order still land in
input order. -/
theorem process_batch_preserves_order_witness :
    (process_batch ["a", "b"] (fun _ s => s ++ "!") [1, 0]).length = (["a", "b"] : List String).length
  ∧ ∀ i, i < (["a", "b"] : List String).length →
      (process_batch ["a", "b"] (fun _ s => s ++ "!") [1, 0]).get? i
        = some (some ((["a", "b"] : List String).getD i "" ++ "!")) :=
  process_batch_preserves_order ["a", "b"] (fun _ s => s ++ "!") [1, 0] (by decide)

/- Embedding of the retry loop of do_request_on,
src/request_manager/api_actions.py lines 39-93. One AttemptEvent describes
what the attempt observed on the wire. Inside the loop the guard
attempt < MAX_ATTEMPTS is always true (attempt ranges over
0 .. MAX_ATTEMPTS - 1), so the early error returns in the non-200,
empty-body and timeout branches are dead code; those branches fall through
to the next attempt. The ClientError branch executes return None
unconditionally after logging, so a client error never retries. Each
iteration that does not return ends with the trailing sleep(1) at lines
90-91; the non-200 and timeout branches sleep a further second inside the
branch. The accumulated seconds of sleeping are returned alongside the
result. -/

inductive AttemptEvent
| ok200 (body : Json)
| ok200null
| non200
| timeout
| clientError

def do_request_loop : List AttemptEvent → Nat → Option Json × Nat
  | [], sleepSec => (none, sleepSec)
  | e :: rest, sleepSec =>
    match e with
    | .ok200 body => (some body, sleepSec)
    | .ok200null => do_request_loop rest (sleepSec + 1)
    | .non200 => do_request_loop rest (sleepSec + 2)
    | .timeout => do_request_loop rest (sleepSec + 2)
    | .clientError => (none, sleepSec)

/- for attempt in range(MAX_ATTEMPTS) consumes at most MAX_ATTEMPTS events,
then falls through to the final return None. -/
def do_request_on (events : List AttemptEvent) (MAX_ATTEMPTS : Nat) : Option Json × Nat :=
  do_request_loop (events.take MAX_ATTEMPTS) 0

/- The events on which the loop moves to the next attempt. -/
def retriable : AttemptEvent → Bool
  | .ok200null => true
  | .non200 => true
  | .timeout => true
  | _ => false

/- Seconds slept before the resubmission that follows the event. -/
def pauseOf : AttemptEvent → Nat
  | .ok200null => 1
  | .non200 => 2
  | .timeout => 2
  | _ => 0

def sumPauses (events : List AttemptEvent) : Nat := (events.map pauseOf).sum

/-- C5 counterexample: with the default MAX_ATTEMPTS = 3, a first-attempt
client error yields the failure signal at once, with no retry and no pause,
even though the second attempt would have succeeded; and a non-2xx status is
followed by a 2-second pause (two separate sleep(1) calls), not the claimed
1-second pause. -/
theorem do_request_on_counterexample :
    do_request_on [.clientError, .ok200 (.str "ok"), .ok200 (.str "ok")] 3 = (none, 0)
  ∧ do_request_on [.non200, .ok200 (.str "ok"), .ok200 (.str "ok")] 3 = (some (.str "ok"), 2) :=
  ⟨rfl, rfl⟩

lemma do_request_loop_retriable (pre : List AttemptEvent)
    (hpre : ∀ e ∈ pre, retriable e = true) :
    ∀ rest acc, do_request_loop (pre ++ rest) acc = do_request_loop rest (acc + sumPauses pre) := by
  induction pre with
  | nil => intro rest acc; simp [sumPauses]
  | cons e pre ih =>
    intro rest acc
    have he : retriable e = true := hpre e (List.mem_cons_self e pre)
    have hpre2 : ∀ x ∈ pre, retriable x = true := fun x hx => hpre x (List.mem_cons_of_mem e hx)
    cases e with
    | ok200 body => simp [retriable] at he
    | clientError => simp [retriable] at he
    | ok200null =>
      show do_request_loop (pre ++ rest) (acc + 1) = _
      rw [ih hpre2 rest (acc + 1)]
      have harith : acc + 1 + sumPauses pre = acc + sumPauses (AttemptEvent.ok200null :: pre) := by
        simp [sumPauses, pauseOf]
        omega
      rw [harith]
    | non200 =>
      show do_request_loop (pre ++ rest) (acc + 2) = _
      rw [ih hpre2 rest (acc + 2)]
      have harith : acc + 2 + sumPauses pre = acc + sumPauses (AttemptEvent.non200 :: pre) := by
        simp [sumPauses, pauseOf]
        omega
      rw [harith]
    | timeout =>
      show do_request_loop (pre ++ rest) (acc + 2) = _
      rw [ih hpre2 rest (acc + 2)]
      have harith : acc + 2 + sumPauses pre = acc + sumPauses (AttemptEvent.timeout :: pre) := by
        simp [sumPauses, pauseOf]
        omega
      rw [harith]

lemma do_request_loop_all_retriable (l : List AttemptEvent)
    (h : ∀ e ∈ l, retriable e = true) (acc : Nat) :
    (do_request_loop l acc).1 = none := by
  have hl := do_request_loop_retriable l h [] acc
  rw [List.append_nil] at hl
  rw [hl]
  rfl

/-- C5 amended: the action retries (with a pause of 1 second for an empty
200 body and 2 seconds for a non-2xx status or a timeout, so at least 1
second) on non-2xx, timeout and empty-body events, returning the first
successful body if one arrives within MAX_ATTEMPTS attempts and the failure
signal after MAX_ATTEMPTS consecutive retryable failures; a client or
network error is not retried and yields the failure signal immediately. -/
theorem do_request_on_retry_semantics
    (pre tail : List AttemptEvent) (body : Json) (MAX_ATTEMPTS : Nat)
    (hpre : ∀ e ∈ pre, retriable e = true) :
    (pre.length < MAX_ATTEMPTS →
      do_request_on (pre ++ .ok200 body :: tail) MAX_ATTEMPTS = (some body, sumPauses pre))
  ∧ (MAX_ATTEMPTS ≤ pre.length →
      (do_request_on (pre ++ .ok200 body :: tail) MAX_ATTEMPTS).1 = none)
  ∧ (pre.length < MAX_ATTEMPTS →
      do_request_on (pre ++ .clientError :: tail) MAX_ATTEMPTS = (none, sumPauses pre))
  ∧ (∀ e ∈ pre, 1 ≤ pauseOf e) := by
  refine ⟨?_, ?_, ?_, ?_⟩
  · intro hlt
    unfold do_request_on
    rw [List.take_append_eq_append_take, List.take_of_length_le (le_of_lt hlt)]
    obtain ⟨k, hk⟩ : ∃ k, MAX_ATTEMPTS - pre.length = k + 1 := ⟨MAX_ATTEMPTS - pre.length - 1, by omega⟩
    rw [hk, List.take_succ_cons]
    rw [do_request_loop_retriable pre hpre]
    simp [do_request_loop]
  · intro hge
    unfold do_request_on
    rw [List.take_append_eq_append_take]
    have hz : MAX_ATTEMPTS - pre.length = 0 := by omega
    rw [hz, List.take_zero, List.append_nil]
    exact do_request_loop_all_retriable _ (fun e he => hpre e (List.mem_of_mem_take he)) 0
  · intro hlt
    unfold do_request_on
    rw [List.take_append_eq_append_take, List.take_of_length_le (le_of_lt hlt)]
    obtain ⟨k, hk⟩ : ∃ k, MAX_ATTEMPTS - pre.length = k + 1 := ⟨MAX_ATTEMPTS - pre.length - 1, by omega⟩
    rw [hk, List.take_succ_cons]
    rw [do_request_loop_retriable pre hpre]
    simp [do_request_loop]
  · intro e he
    have hre := hpre e he
    cases e <;> simp_all [retriable, pauseOf]

/-- Witness for C5 amended: one non-2xx failure followed by a success, with
the default of 3 attempts. -/
theorem do_request_on_retry_semantics_witness :
    ((0 + 1 : Nat) < 3 →
      do_request_on ([.non200] ++ .ok200 (.str "ok") :: []) 3 = (some (.str "ok"), sumPauses [.non200]))
  ∧ (3 ≤ ([AttemptEvent.non200] : List AttemptEvent).length →
      (do_request_on ([.non200] ++ .ok200 (.str "ok") :: []) 3).1 = none)
  ∧ (([AttemptEvent.non200] : List AttemptEvent).length < 3 →
      do_request_on ([.non200] ++ .clientError :: []) 3 = (none, sumPauses [.non200]))
  ∧ (∀ e ∈ ([AttemptEvent.non200] : List AttemptEvent), 1 ≤ pauseOf e) := by
  have h := do_request_on_retry_semantics [.non200] [] (.str "ok") 3
    (by intro e he; simp at he; subst he; rfl)
  simpa using h

/- Embedding of QuerySet.divide_by_keys, src/dataset_models.py lines 130-156.
Query records are modelled as association lists with string values (the
division logic only compares values with "unsorted" and joins them with "/").
The defaultdict of QuerySets is modelled as an association list of buckets in
insertion order; each bucket inherits the parent file path. The enumerate
check i == len(division_keys) - 1 is translated as: the remaining key list
after the current key is empty. The bare return that halts the division when
completeness is False is modelled as none. -/

abbrev QRecord := List (String × String)

structure QuerySet where
  queries : List QRecord
  file_path : Option String
deriving DecidableEq

def lookupStr (q : QRecord) (k : String) : Option String :=
  (q.find? (fun p => p.1 == k)).map (fun p => p.2)

/- Python dict .get(key, default). -/
def getStrD (q : QRecord) (k d : String) : String :=
  (lookupStr q k).getD d

def joinSlash (idents : List String) : String :=
  String.intercalate "/" idents

/- all_queries_categorized[identifier]._append(query) on a defaultdict: an
existing bucket is extended in place, a fresh bucket (inheriting the parent
file path) is appended at the end. -/
def appendToBucket (bs : List (String × QuerySet)) (id : String) (q : QRecord)
    (fp : Option String) : List (String × QuerySet) :=
  match bs with
  | [] => [(id, ⟨[q], fp⟩)]
  | (k, s) :: rest =>
    if k = id then (k, ⟨s.queries ++ [q], s.file_path⟩) :: rest
    else (k, s) :: appendToBucket rest id q fp

/- The inner loop over division_keys for one query. -/
def divideInner (completeness : Bool) (q : QRecord) (fp : Option String) :
    List String → List String → List (String × QuerySet) → Option (List (String × QuerySet))
  | [], _idents, buckets => some buckets
  | dk :: rest, idents, buckets =>
    let dv := getStrD q dk "unsorted"
    let idents2 := idents ++ [dv]
    if dv = "unsorted" ∧ completeness = false then none
    else
      divideInner completeness q fp rest idents2
        (if dv = "unsorted" ∨ rest = [] then appendToBucket buckets (joinSlash idents2) q fp
         else buckets)

/- The outer loop over self.queries. -/
def divideGo (completeness : Bool) (fp : Option String) (ks : List String) :
    List QRecord → List (String × QuerySet) → Option (List (String × QuerySet))
  | [], buckets => some buckets
  | q :: qs, buckets =>
    (divideInner completeness q fp ks [] buckets).bind (divideGo completeness fp ks qs)

def divide_by_keys (qs : QuerySet) (division_keys : List String) (completeness : Bool) :
    Option (List (String × QuerySet)) :=
  divideGo completeness qs.file_path division_keys qs.queries []

def c3_q1 : QRecord := [("discipline", "math"), ("field", "algebra")]

def c3_q2 : QRecord := [("discipline", "math")]

/-- C3 counterexample: grouping by "discipline" and "field" where the second
record lacks "field". With completeness=False the code aborts the whole
grouping (returns None), and with completeness=True it routes the record
under "math/unsorted" and continues: the exact opposite of the claim. -/
theorem divide_by_keys_flag_polarity_counterexample :
    divide_by_keys ⟨[c3_q1, c3_q2], none⟩ ["discipline", "field"] false = none
  ∧ divide_by_keys ⟨[c3_q1, c3_q2], none⟩ ["discipline", "field"] true
      = some [("math/algebra", ⟨[c3_q1], none⟩), ("math/unsorted", ⟨[c3_q2], none⟩)] := by
  constructor
  · rfl
  · rfl

def memBuckets (q : QRecord) (id : String) (bs : List (String × QuerySet)) : Prop :=
  ∃ sub, (id, sub) ∈ bs ∧ q ∈ sub.queries

lemma appendToBucket_cons_eq (k : String) (s : QuerySet) (rest : List (String × QuerySet))
    (id : String) (q : QRecord) (fp : Option String) :
    appendToBucket ((k, s) :: rest) id q fp
      = if k = id then (k, ⟨s.queries ++ [q], s.file_path⟩) :: rest
        else (k, s) :: appendToBucket rest id q fp := rfl

lemma appendToBucket_mono (id id2 : String) (q q2 : QRecord) (fp : Option String) :
    ∀ bs : List (String × QuerySet), memBuckets q id bs →
      memBuckets q id (appendToBucket bs id2 q2 fp) := by
  intro bs
  induction bs with
  | nil =>
    intro h
    obtain ⟨sub, hmem, _⟩ := h
    cases hmem
  | cons p rest ih =>
    intro h
    obtain ⟨sub, hmem, hq⟩ := h
    obtain ⟨k, s⟩ := p
    rcases List.mem_cons.mp hmem with h1 | h1
    · have e1 : id = k := congrArg Prod.fst h1
      have e2 : sub = s := congrArg Prod.snd h1
      subst e1
      subst e2
      by_cases hk : id = id2
      · refine ⟨⟨sub.queries ++ [q2], sub.file_path⟩, ?_, List.mem_append_left _ hq⟩
        rw [appendToBucket_cons_eq, if_pos hk]
        exact List.mem_cons_self _ _
      · refine ⟨sub, ?_, hq⟩
        rw [appendToBucket_cons_eq, if_neg hk]
        exact List.mem_cons_self _ _
    · by_cases hk : k = id2
      · refine ⟨sub, ?_, hq⟩
        rw [appendToBucket_cons_eq, if_pos hk]
        exact List.mem_cons_of_mem _ h1
      · obtain ⟨sub2, hmem2, hq2⟩ := ih ⟨sub, h1, hq⟩
        refine ⟨sub2, ?_, hq2⟩
        rw [appendToBucket_cons_eq, if_neg hk]
        exact List.mem_cons_of_mem _ hmem2

lemma appendToBucket_self (id : String) (q : QRecord) (fp : Option String) :
    ∀ bs : List (String × QuerySet), memBuckets q id (appendToBucket bs id q fp) := by
  intro bs
  induction bs with
  | nil =>
    exact ⟨⟨[q], fp⟩, List.mem_singleton.mpr rfl, List.mem_singleton.mpr rfl⟩
  | cons p rest ih =>
    obtain ⟨k, s⟩ := p
    by_cases hk : k = id
    · subst hk
      refine ⟨⟨s.queries ++ [q], s.file_path⟩, ?_, List.mem_append_right _ (List.mem_singleton.mpr rfl)⟩
      rw [appendToBucket_cons_eq, if_pos rfl]
      exact List.mem_cons_self _ _
    · obtain ⟨sub, hmem, hq⟩ := ih
      refine ⟨sub, ?_, hq⟩
      rw [appendToBucket_cons_eq, if_neg hk]
      exact List.mem_cons_of_mem _ hmem

lemma divideInner_true_mem (q0 : QRecord) (id : String) (q : QRecord) (fp : Option String) :
    ∀ (keys idents : List String) (bs : List (String × QuerySet)), memBuckets q0 id bs →
      ∃ bs2, divideInner true q fp keys idents bs = some bs2 ∧ memBuckets q0 id bs2 := by
  intro keys
  induction keys with
  | nil =>
    intro idents bs h
    exact ⟨bs, rfl, h⟩
  | cons dk rest ih =>
    intro idents bs h
    simp only [divideInner]
    rw [if_neg (by simp)]
    by_cases hcond : getStrD q dk "unsorted" = "unsorted" ∨ rest = []
    · rw [if_pos hcond]
      exact ih _ _ (appendToBucket_mono id _ q0 q fp bs h)
    · rw [if_neg hcond]
      exact ih _ _ h

lemma divideInner_true_some (q : QRecord) (fp : Option String) :
    ∀ (keys idents : List String) (bs : List (String × QuerySet)),
      ∃ bs2, divideInner true q fp keys idents bs = some bs2 := by
  intro keys
  induction keys with
  | nil =>
    intro idents bs
    exact ⟨bs, rfl⟩
  | cons dk rest ih =>
    intro idents bs
    simp only [divideInner]
    rw [if_neg (by simp)]
    by_cases hcond : getStrD q dk "unsorted" = "unsorted" ∨ rest = []
    · rw [if_pos hcond]
      exact ih _ _
    · rw [if_neg hcond]
      exact ih _ _

lemma divideInner_false_missing (q : QRecord) (fp : Option String) (k : String)
    (hmiss : getStrD q k "unsorted" = "unsorted") :
    ∀ (keys idents : List String) (bs : List (String × QuerySet)), k ∈ keys →
      divideInner false q fp keys idents bs = none := by
  intro keys
  induction keys with
  | nil =>
    intro idents bs hk
    cases hk
  | cons dk rest ih =>
    intro idents bs hk
    by_cases hdv : getStrD q dk "unsorted" = "unsorted"
    · simp [divideInner, hdv]
    · have hkr : k ∈ rest := by
        rcases List.mem_cons.mp hk with h | h
        · exact absurd (h ▸ hmiss) hdv
        · exact h
      simp only [divideInner]
      rw [if_neg (by simp [hdv])]
      rw [if_neg (by simp [hdv, List.ne_nil_of_mem hkr])]
      exact ih _ _ hkr

lemma divideInner_true_missing (q : QRecord) (fp : Option String) (k : String)
    (hmiss : getStrD q k "unsorted" = "unsorted") :
    ∀ (keys idents : List String) (bs : List (String × QuerySet)), k ∈ keys →
      ∃ bs2, divideInner true q fp keys idents bs = some bs2
        ∧ ∃ ids, memBuckets q (joinSlash (ids ++ ["unsorted"])) bs2 := by
  intro keys
  induction keys with
  | nil =>
    intro idents bs hk
    cases hk
  | cons dk rest ih =>
    intro idents bs hk
    by_cases hdv : getStrD q dk "unsorted" = "unsorted"
    · simp only [divideInner, hdv]
      rw [if_neg (by simp)]
      rw [if_pos (Or.inl trivial)]
      obtain ⟨bs2, heq, hmem⟩ := divideInner_true_mem q (joinSlash (idents ++ ["unsorted"])) q fp
        rest (idents ++ ["unsorted"]) _ (appendToBucket_self _ q fp bs)
      exact ⟨bs2, heq, idents, hmem⟩
    · have hkr : k ∈ rest := by
        rcases List.mem_cons.mp hk with h | h
        · exact absurd (h ▸ hmiss) hdv
        · exact h
      simp only [divideInner]
      rw [if_neg (by simp [hdv])]
      rw [if_neg (by simp [hdv, List.ne_nil_of_mem hkr])]
      exact ih _ _ hkr

lemma divideGo_false_missing (fp : Option String) (ks : List String) (k : String)
    (hk : k ∈ ks) :
    ∀ (l : List QRecord) (bs : List (String × QuerySet)),
      (∃ q ∈ l, getStrD q k "unsorted" = "unsorted") →
      divideGo false fp ks l bs = none := by
  intro l
  induction l with
  | nil =>
    intro bs h
    obtain ⟨q, hq, _⟩ := h
    cases hq
  | cons q0 rest ih =>
    intro bs h
    obtain ⟨q, hq, hmiss⟩ := h
    rcases List.mem_cons.mp hq with h1 | h1
    · subst h1
      simp [divideGo, divideInner_false_missing q fp k hmiss ks [] bs hk]
    · cases hres : divideInner false q0 fp ks [] bs with
      | none => simp [divideGo, hres]
      | some bs2 =>
        simp only [divideGo, hres, Option.bind_some]
        exact ih bs2 ⟨q, h1, hmiss⟩

lemma divideGo_true_mem (fp : Option String) (ks : List String) (q0 : QRecord) (id : String) :
    ∀ (l : List QRecord) (bs : List (String × QuerySet)), memBuckets q0 id bs →
      ∃ bs2, divideGo true fp ks l bs = some bs2 ∧ memBuckets q0 id bs2 := by
  intro l
  induction l with
  | nil =>
    intro bs h
    exact ⟨bs, rfl, h⟩
  | cons r rest ih =>
    intro bs h
    obtain ⟨bs1, heq, hmem⟩ := divideInner_true_mem q0 id r fp ks [] bs h
    obtain ⟨bs2, heq2, hmem2⟩ := ih bs1 hmem
    exact ⟨bs2, by simp [divideGo, heq, heq2], hmem2⟩

lemma divideGo_true_missing (fp : Option String) (ks : List String) (k : String)
    (hk : k ∈ ks) :
    ∀ (l : List QRecord) (bs : List (String × QuerySet)) (q : QRecord), q ∈ l →
      getStrD q k "unsorted" = "unsorted" →
      ∃ bs2, divideGo true fp ks l bs = some bs2
        ∧ ∃ ids sub, (joinSlash (ids ++ ["unsorted"]), sub) ∈ bs2 ∧ q ∈ sub.queries := by
  intro l
  induction l with
  | nil =>
    intro bs q hq
    cases hq
  | cons r rest ih =>
    intro bs q hq hmiss
    rcases List.mem_cons.mp hq with h1 | h1
    · subst h1
      obtain ⟨bs1, heq, ids, hmem⟩ := divideInner_true_missing q fp k hmiss ks [] bs hk
      obtain ⟨bs2, heq2, hmem2⟩ := divideGo_true_mem fp ks q (joinSlash (ids ++ ["unsorted"])) rest bs1 hmem
      obtain ⟨sub, hsub, hqm⟩ := hmem2
      exact ⟨bs2, by simp [divideGo, heq, heq2], ids, sub, hsub, hqm⟩
    · obtain ⟨bs1, heq⟩ := divideInner_true_some r fp ks [] bs
      obtain ⟨bs2, heq2, hrest⟩ := ih bs1 q h1 hmiss
      exact ⟨bs2, by simp [divideGo, heq, heq2], hrest⟩

/-- C3 amended: when some record of the grouped collection lacks one of the
grouping keys, completeness=False aborts the whole grouping (returns None),
while completeness=True routes the orphan record into a bucket whose
"/"-joined identifier ends in the "unsorted" component and continues
grouping the rest. The polarity is the opposite of the claim. -/
theorem divide_by_keys_completeness_semantics
    (queries : List QRecord) (fp : Option String) (ks : List String)
    (q : QRecord) (k : String) (hq : q ∈ queries) (hk : k ∈ ks)
    (hmiss : getStrD q k "unsorted" = "unsorted") :
    divide_by_keys ⟨queries, fp⟩ ks false = none
  ∧ ∃ bs, divide_by_keys ⟨queries, fp⟩ ks true = some bs
      ∧ ∃ ids sub, (joinSlash (ids ++ ["unsorted"]), sub) ∈ bs ∧ q ∈ sub.queries := by
  constructor
  · exact divideGo_false_missing fp ks k hk queries [] ⟨q, hq, hmiss⟩
  · obtain ⟨bs, heq, hmem⟩ := divideGo_true_missing fp ks k hk queries [] q hq hmiss
    exact ⟨bs, heq, hmem⟩

/-- Witness for C3 amended, at the two-record two-key counterexample input. -/
theorem divide_by_keys_completeness_semantics_witness :
    divide_by_keys ⟨[c3_q1, c3_q2], none⟩ ["discipline", "field"] false = none
  ∧ ∃ bs, divide_by_keys ⟨[c3_q1, c3_q2], none⟩ ["discipline", "field"] true = some bs
      ∧ ∃ ids sub, (joinSlash (ids ++ ["unsorted"]), sub) ∈ bs ∧ c3_q2 ∈ sub.queries :=
  divide_by_keys_completeness_semantics [c3_q1, c3_q2] none ["discipline", "field"]
    c3_q2 "field" (by simp) (by simp) rfl

/- Embedding of ResponseSet.judge and its helpers, src/dataset_models.py
lines 290-480. Response records are association lists from field names to
values; a value is a string or a number (the score written back by judging
is a float). Preprocessors may raise, modelled by Option (the model
restricts them to string-valued fields, which is what every preset
preprocessor handles). A judger returns a float score or the
JUDGE_FAILED_MSG string, modelled by the two JOut constructors. A KeyError
raised by a record lookup in _judge_single_resp_obj propagates out of judge
uncaught; the loop embedding returns Except.error for that case. -/

inductive Val
| str (s : String)
| num (q : ℚ)
deriving DecidableEq

abbrev Record := List (String × Val)

/- Python dict access resp_obj[key]: none models KeyError. -/
def getVal : Record → String → Option Val
  | [], _ => none
  | (k2, v) :: rest, k => if k2 = k then some v else getVal rest k

def hasKey (r : Record) (k : String) : Bool :=
  (getVal r k).isSome

/- Python dict assignment d[key] = value: replace in place, else append. -/
def setVal : Record → String → Val → Record
  | [], k, v => [(k, v)]
  | (k2, v2) :: rest, k, v =>
    if k2 = k then (k, v) :: rest else (k2, v2) :: setVal rest k v

inductive JOut
| score (q : ℚ)
| failMsg
deriving DecidableEq

/- as_is, src/text_preprocessors.py lines 19-23: no preprocessing. The model
types preprocessors as Val to Option String; string fields pass through. -/
def as_is : Val → Option String
  | .str s => some s
  | .num _ => none

/- _STRICT_MATCH, src/judgers/presets.py lines 25-26:
float(response == answer); the async STRICT_MATCH wrapper returns the same
value. -/
def STRICT_MATCH (response answer : String) (_context : Val) : JOut :=
  .score (if response = answer then 1 else 0)

/- response_key = foreign_response_key if foreign_response_key else
self.response_key (an empty string is falsy). -/
def resolveResponseKey (self_response_key foreign_response_key : Option String) : Option String :=
  match foreign_response_key with
  | some fk => if fk = "" then self_response_key else some fk
  | none => self_response_key

/- context = resp_obj[context_key] if context_key else "" (None and the
empty string are falsy). -/
def resolveContext (resp_obj : Record) (context_key : Option String) : Option Val :=
  match context_key with
  | some ck => if ck = "" then some (.str "") else getVal resp_obj ck
  | none => some (.str "")

/- _validate_key_names, dataset_models.py lines 390-417, checking only the
first record. -/
def _validate_key_names (responses : List Record) (self_response_key : Option String)
    (answer_key : String) (context_key : Option String)
    (foreign_response_key : Option String) : Bool :=
  match resolveResponseKey self_response_key foreign_response_key with
  | none => false
  | some rk =>
    let first := responses.headD []
    if hasKey first rk && hasKey first answer_key then
      match context_key with
      | some ck => hasKey first ck
      | none => true
    else false

/- _judge_single_resp_obj, dataset_models.py lines 419-480. Returns the
(score_change, full_score_change, record) triple; SKIPPED is (0, -1) with
the record untouched, a successful judging returns (score, 0) and updates
the record with judged_content and the fixed field name "score". -/
def _judge_single_resp_obj (resp_obj : Record) (response_key answer_key : String)
    (context_key : Option String) (response_preprocessor answer_preprocessor : Val → Option String)
    (judger : String → String → Val → JOut) : Except Unit (ℚ × Int × Record) :=
  match getVal resp_obj response_key with
  | none => .error ()
  | some response =>
    match getVal resp_obj answer_key with
    | none => .error ()
    | some correct_answer =>
      match resolveContext resp_obj context_key with
      | none => .error ()
      | some context =>
        if response = .str FALLBACK_ERR_MSG then .ok (0, -1, resp_obj)
        else
          match response_preprocessor response, answer_preprocessor correct_answer with
          | some preprocessed_response, some preprocessed_answer =>
            if preprocessed_answer = "" then .ok (0, -1, resp_obj)
            else if preprocessed_response = "" then .ok (0, -1, resp_obj)
            else
              match judger preprocessed_answer preprocessed_response context with
              | .failMsg => .ok (0, -1, resp_obj)
              | .score q =>
                .ok (q, 0,
                  setVal (setVal resp_obj "judged_content" (.str preprocessed_response))
                    "score" (.num q))
          | _, _ => .ok (0, -1, resp_obj)

/- The for loop of judge, dataset_models.py lines 379-383, accumulating the
score and full-score deltas and the mutated records. -/
def judgeLoop (response_key answer_key : String) (context_key : Option String)
    (rp ap : Val → Option String) (judger : String → String → Val → JOut) :
    List Record → Except Unit (ℚ × Int × List Record)
  | [] => .ok (0, 0, [])
  | r :: rest =>
    match _judge_single_resp_obj r response_key answer_key context_key rp ap judger with
    | .error e => .error e
    | .ok (sc, fc, r2) =>
      match judgeLoop response_key answer_key context_key rp ap judger rest with
      | .error e => .error e
      | .ok (s, f, rs) => .ok (sc + s, fc + f, r2 :: rs)

/- The four ways judge can end: returning None on an empty set or failed
validation (records untouched), an uncaught KeyError from a record lookup,
the ZeroDivisionError raised by the report line when full_score is 0, or
the summary dict together with the mutated records. -/
inductive JudgeResult
| invalid (records : List Record)
| keyError
| divByZero (records : List Record)
| ok (eval_name : String) (score : ℚ) (full_score : Int) (accuracy : ℚ) (records : List Record)
deriving DecidableEq

/- judge, dataset_models.py lines 331-388. The context key falls back to the
stored query key only when context_key is None; validation runs BEFORE that
fallback, exactly as in the source. -/
def judge (responses : List Record) (query_key self_response_key : Option String)
    (answer_key : String) (context_key : Option String) (eval_name : String)
    (rp ap : Val → Option String) (judger : String → String → Val → JOut)
    (foreign_response_key : Option String) : JudgeResult :=
  if responses.length = 0 then .invalid responses
  else if _validate_key_names responses self_response_key answer_key context_key foreign_response_key then
    match resolveResponseKey self_response_key foreign_response_key with
    | none => .invalid responses
    | some rk =>
      let ck := match context_key with
        | none => query_key
        | some c => some c
      match judgeLoop rk answer_key ck rp ap judger responses with
      | .error _ => .keyError
      | .ok (score, fc, rs) =>
        let full_score : Int := (responses.length : Int) + fc
        if full_score = 0 then .divByZero rs
        else .ok eval_name score full_score (score / (full_score : ℚ)) rs
  else .invalid responses

/- The response field holds the transport-failure sentinel. -/
def isSentinelB (rk : String) (r : Record) : Bool :=
  getVal r rk == some (.str FALLBACK_ERR_MSG)

/- A record that judging processes to completion: both fields present, both
preprocessors succeed with nonempty output, and the judger returns a score
(the context is the empty string, the value used when no context key is
configured). -/
def Judgeable (rk ak : String) (rp ap : Val → Option String)
    (judger : String → String → Val → JOut) (r : Record) : Prop :=
  ∃ v a pr pa q, getVal r rk = some v ∧ getVal r ak = some a ∧
    rp v = some pr ∧ ap a = some pa ∧ pa ≠ "" ∧ pr ≠ "" ∧
    judger pa pr (.str "") = .score q

lemma getVal_setVal_self (k : String) (v : Val) :
    ∀ r : Record, getVal (setVal r k v) k = some v := by
  intro r
  induction r with
  | nil => simp [setVal, getVal]
  | cons p rest ih =>
    obtain ⟨k2, v2⟩ := p
    by_cases h : k2 = k
    · simp [setVal, h, getVal]
    · simp [setVal, h, getVal, ih]

lemma getVal_setVal_ne (k k2 : String) (v : Val) (hne : k2 ≠ k) :
    ∀ r : Record, getVal (setVal r k v) k2 = getVal r k2 := by
  intro r
  induction r with
  | nil => simp [setVal, getVal, Ne.symm hne]
  | cons p rest ih =>
    obtain ⟨k3, v3⟩ := p
    by_cases h : k3 = k
    · subst h
      have h2 : ¬ k3 = k2 := fun hh => hne (hh ▸ rfl)
      simp [setVal, getVal, h2, Ne.symm hne]
    · by_cases h3 : k3 = k2
      · simp [setVal, h, getVal, h3, hne]
      · simp [setVal, h, getVal, h3, ih]

lemma judgeSingle_sentinel (r : Record) (rk ak : String)
    (rp ap : Val → Option String) (judger : String → String → Val → JOut)
    (hs : isSentinelB rk r = true) (ha : (getVal r ak).isSome = true) :
    _judge_single_resp_obj r rk ak none rp ap judger = .ok (0, -1, r) := by
  have hsv : getVal r rk = some (.str FALLBACK_ERR_MSG) := by
    simpa [isSentinelB] using hs
  obtain ⟨a, hav⟩ := Option.isSome_iff_exists.mp ha
  simp [_judge_single_resp_obj, hsv, hav, resolveContext]

lemma judgeSingle_judgeable (r : Record) (rk ak : String)
    (rp ap : Val → Option String) (judger : String → String → Val → JOut)
    (hs : isSentinelB rk r = false)
    (hj : Judgeable rk ak rp ap judger r) :
    ∃ q pr, _judge_single_resp_obj r rk ak none rp ap judger
      = .ok (q, 0, setVal (setVal r "judged_content" (.str pr)) "score" (.num q)) := by
  obtain ⟨v, a, pr, pa, q, h1, h2, h3, h4, h5, h6, h7⟩ := hj
  have hvne : v ≠ .str FALLBACK_ERR_MSG := by
    intro hv
    rw [hv] at h1
    simp [isSentinelB, h1] at hs
  refine ⟨q, pr, ?_⟩
  simp [_judge_single_resp_obj, h1, h2, resolveContext, hvne, h3, h4, h5, h6, h7]

lemma forall2_flip_eq {l rs : List Record} (h : List.Forall₂ (fun a b => b = a) l rs) :
    rs = l := by
  induction h with
  | nil => rfl
  | cons hpair hrest ih => rw [ih, hpair]

lemma judgeLoop_spec (rk ak : String) (rp ap : Val → Option String)
    (judger : String → String → Val → JOut) :
    ∀ l : List Record,
      (∀ r ∈ l, (getVal r ak).isSome = true ∧
        (isSentinelB rk r = true ∨ Judgeable rk ak rp ap judger r)) →
      ∃ S F rs, judgeLoop rk ak none rp ap judger l = .ok (S, F, rs)
        ∧ F = -(l.countP (isSentinelB rk) : Int)
        ∧ List.Forall₂ (fun a b =>
            (isSentinelB rk a = true → b = a)
            ∧ (isSentinelB rk a = false →
                (∃ q, getVal b "score" = some (.num q))
                ∧ (∃ pr, getVal b "judged_content" = some (.str pr)))) l rs := by
  intro l
  induction l with
  | nil =>
    intro _
    refine ⟨0, 0, [], rfl, by simp, List.Forall₂.nil⟩
  | cons r rest ih =>
    intro h
    obtain ⟨ha, hcase⟩ := h r (List.mem_cons_self r rest)
    have hrest := fun x hx => h x (List.mem_cons_of_mem _ hx)
    obtain ⟨S, F, rs, heq, hF, hfa⟩ := ih hrest
    by_cases hs : isSentinelB rk r = true
    · have hsingle := judgeSingle_sentinel r rk ak rp ap judger hs ha
      refine ⟨0 + S, -1 + F, r :: rs, ?_, ?_, ?_⟩
      · simp only [judgeLoop, hsingle, heq]
      · have hc : (r :: rest).countP (isSentinelB rk) = rest.countP (isSentinelB rk) + 1 := by
          rw [List.countP_cons, hs]
          simp
        rw [hF, hc]
        push_cast
        ring
      · refine List.Forall₂.cons ⟨fun _ => rfl, fun hfalse => ?_⟩ hfa
        rw [hs] at hfalse
        cases hfalse
    · have hs2 : isSentinelB rk r = false := by
        cases hb : isSentinelB rk r
        · rfl
        · exact absurd hb hs
      have hjj : Judgeable rk ak rp ap judger r := by
        rcases hcase with hs3 | hj
        · exact absurd hs3 hs
        · exact hj
      obtain ⟨q, pr, hsingle⟩ := judgeSingle_judgeable r rk ak rp ap judger hs2 hjj
      refine ⟨q + S, 0 + F,
        setVal (setVal r "judged_content" (.str pr)) "score" (.num q) :: rs, ?_, ?_, ?_⟩
      · simp only [judgeLoop, hsingle, heq]
      · have hc : (r :: rest).countP (isSentinelB rk) = rest.countP (isSentinelB rk) := by
          rw [List.countP_cons, hs2]
          simp
        rw [hF, hc]
        ring
      · refine List.Forall₂.cons ⟨fun htrue => ?_, fun _ => ⟨⟨q, ?_⟩, ⟨pr, ?_⟩⟩⟩ hfa
        · rw [hs2] at htrue
          cases htrue
        · exact getVal_setVal_self "score" (.num q) _
        · rw [getVal_setVal_ne "score" "judged_content" (.num q) (by decide)]
          exact getVal_setVal_self "judged_content" (.str pr) _

lemma forall2_imp_with_mem {α β : Type} {R S : α → β → Prop} :
    ∀ {l : List α} {rs : List β}, List.Forall₂ R l rs →
      (∀ a b, a ∈ l → R a b → S a b) → List.Forall₂ S l rs := by
  intro l rs h
  induction h with
  | nil => intro _; exact List.Forall₂.nil
  | cons hpair hrest ih =>
    intro hcond
    exact List.Forall₂.cons (hcond _ _ (List.mem_cons_self _ _) hpair)
      (ih fun a b ha hr => hcond a b (List.mem_cons_of_mem _ ha) hr)

lemma forall2_eq_with_mem {α : Type} {R : α → α → Prop} :
    ∀ {l rs : List α}, List.Forall₂ R l rs →
      (∀ a b, a ∈ l → R a b → b = a) → rs = l := by
  intro l rs h
  induction h with
  | nil => intro _; rfl
  | cons hpair hrest ih =>
    intro hcond
    rw [ih (fun a b ha hr => hcond a b (List.mem_cons_of_mem _ ha) hr),
      hcond _ _ (List.mem_cons_self _ _) hpair]

lemma validate_true_of (responses : List Record) (rk ak : String)
    (hrk : hasKey (responses.headD []) rk = true)
    (hak : hasKey (responses.headD []) ak = true) :
    _validate_key_names responses (some rk) ak none none = true := by
  show (if hasKey (responses.headD []) rk && hasKey (responses.headD []) ak then true else false) = true
  rw [hrk, hak]
  rfl

lemma judge_eval (responses : List Record) (rk ak eval_name : String)
    (rp ap : Val → Option String) (judger : String → String → Val → JOut)
    (S : ℚ) (F : Int) (rs : List Record)
    (hlen : ¬ responses.length = 0)
    (hval : _validate_key_names responses (some rk) ak none none = true)
    (heq : judgeLoop rk ak none rp ap judger responses = .ok (S, F, rs)) :
    judge responses none (some rk) ak none eval_name rp ap judger none
      = if ((responses.length : Int) + F) = 0 then .divByZero rs
        else .ok eval_name S ((responses.length : Int) + F)
          (S / ((((responses.length : Int) + F) : Int) : ℚ)) rs := by
  simp only [judge, resolveResponseKey, heq]
  rw [if_neg hlen, if_pos hval]

/-- C4: for a non-empty collection of N records of which K carry the
transport-failure sentinel in the response field and all others are judged
to completion, judge reports full_score = N - K, accuracy = score divided by
that full_score, and the K sentinel records come back unchanged with no
"score" field. -/
theorem judge_transport_failure_skip_accounting
    (responses : List Record) (rk ak eval_name : String)
    (rp ap : Val → Option String) (judger : String → String → Val → JOut)
    (hne : responses ≠ [])
    (hall : ∀ r ∈ responses, (getVal r ak).isSome = true ∧
      (isSentinelB rk r = true ∨ Judgeable rk ak rp ap judger r))
    (hscore : ∀ r ∈ responses, hasKey r "score" = false)
    (hK : responses.countP (isSentinelB rk) < responses.length) :
    ∃ S rs,
      judge responses none (some rk) ak none eval_name rp ap judger none
        = .ok eval_name S
            ((responses.length : Int) - (responses.countP (isSentinelB rk) : Int))
            (S / ((((responses.length : Int) - (responses.countP (isSentinelB rk) : Int)) : Int) : ℚ))
            rs
      ∧ List.Forall₂ (fun a b => isSentinelB rk a = true → (b = a ∧ hasKey b "score" = false))
          responses rs := by
  obtain ⟨S, F, rs, heq, hF, hfa⟩ := judgeLoop_spec rk ak rp ap judger responses hall
  obtain ⟨r0, rest0, hcons⟩ := List.exists_cons_of_ne_nil hne
  have hr0 : r0 ∈ responses := by
    rw [hcons]
    exact List.mem_cons_self _ _
  have hrk0 : hasKey (responses.headD []) rk = true := by
    rw [hcons, List.headD_cons]
    rcases (hall r0 hr0).2 with hsent | hj
    · have hv : getVal r0 rk = some (.str FALLBACK_ERR_MSG) := by
        simpa [isSentinelB] using hsent
      simp [hasKey, hv]
    · obtain ⟨v, a, pr, pa, q, h1, _⟩ := hj
      simp [hasKey, h1]
  have hak0 : hasKey (responses.headD []) ak = true := by
    rw [hcons, List.headD_cons]
    exact (hall r0 hr0).1
  have hval := validate_true_of responses rk ak hrk0 hak0
  have hlen : ¬ responses.length = 0 := by
    intro h0
    exact hne (List.length_eq_zero.mp h0)
  have hfull : ((responses.length : Int) + F)
      = (responses.length : Int) - (responses.countP (isSentinelB rk) : Int) := by
    rw [hF]
    ring
  have hfullne : ¬ ((responses.length : Int) + F) = 0 := by
    rw [hfull]
    omega
  refine ⟨S, rs, ?_, ?_⟩
  · rw [judge_eval responses rk ak eval_name rp ap judger S F rs hlen hval heq,
      if_neg hfullne, hfull]
  · refine forall2_imp_with_mem hfa ?_
    intro a b ha hr hsent
    refine ⟨hr.1 hsent, ?_⟩
    rw [hr.1 hsent]
    exact hscore a ha

def c4_r1 : Record := [("response", .str FALLBACK_ERR_MSG), ("answer", .str "A")]

def c4_r2 : Record := [("response", .str "A"), ("answer", .str "A")]

/-- Witness for C4: two records, one transport failure and one strict-match
success. -/
theorem judge_transport_failure_skip_accounting_witness :
    ∃ S rs,
      judge [c4_r1, c4_r2] none (some "response") "answer" none "Evaluation" as_is as_is STRICT_MATCH none
        = .ok "Evaluation" S
            ((([c4_r1, c4_r2] : List Record).length : Int)
              - (([c4_r1, c4_r2] : List Record).countP (isSentinelB "response") : Int))
            (S / (((([c4_r1, c4_r2] : List Record).length : Int)
              - (([c4_r1, c4_r2] : List Record).countP (isSentinelB "response") : Int) : Int) : ℚ))
            rs
      ∧ List.Forall₂ (fun a b => isSentinelB "response" a = true → (b = a ∧ hasKey b "score" = false))
          [c4_r1, c4_r2] rs :=
  judge_transport_failure_skip_accounting [c4_r1, c4_r2] "response" "answer" "Evaluation"
    as_is as_is STRICT_MATCH (by simp)
    (by
      intro r hr
      rcases List.mem_cons.mp hr with h1 | h1
      · subst h1
        exact ⟨by decide, Or.inl (by decide)⟩
      · have h2 : r = c4_r2 := by simpa using h1
        subst h2
        exact ⟨by decide, Or.inr ⟨.str "A", .str "A", "A", "A",
          if ("A" : String) = "A" then 1 else 0,
          by decide, by decide, rfl, rfl, by decide, by decide, rfl⟩⟩)
    (by
      intro r hr
      rcases List.mem_cons.mp hr with h1 | h1
      · subst h1
        decide
      · have h2 : r = c4_r2 := by simpa using h1
        subst h2
        decide)
    (by decide)

/-- C7 amended: after a judging pass, every successfully judged record
carries its numeric score under the FIXED field name "score" (identical for
every pass, so independent passes over the same collection write the same
field rather than pass-named distinct fields) together with the preprocessed
response text under "judged_content"; the evaluation-pass name influences
only the summary, not the records. -/
theorem judge_writes_fixed_score_field
    (responses : List Record) (rk ak : String)
    (rp ap : Val → Option String) (judger : String → String → Val → JOut)
    (hne : responses ≠ [])
    (hall2 : ∀ r ∈ responses, isSentinelB rk r = false ∧ Judgeable rk ak rp ap judger r) :
    ∃ S rs,
      (∀ eval_name, judge responses none (some rk) ak none eval_name rp ap judger none
        = .ok eval_name S (responses.length : Int) (S / ((responses.length : Int) : ℚ)) rs)
      ∧ List.Forall₂ (fun _ b =>
          (∃ q, getVal b "score" = some (.num q))
          ∧ (∃ pr, getVal b "judged_content" = some (.str pr))) responses rs := by
  have hall : ∀ r ∈ responses, (getVal r ak).isSome = true ∧
      (isSentinelB rk r = true ∨ Judgeable rk ak rp ap judger r) := by
    intro r hr
    obtain ⟨hs, hj⟩ := hall2 r hr
    obtain ⟨v, a, pr, pa, q, h1, h2, _⟩ := hj
    exact ⟨by simp [h2], Or.inr (hall2 r hr).2⟩
  obtain ⟨S, F, rs, heq, hF, hfa⟩ := judgeLoop_spec rk ak rp ap judger responses hall
  obtain ⟨r0, rest0, hcons⟩ := List.exists_cons_of_ne_nil hne
  have hr0 : r0 ∈ responses := by
    rw [hcons]
    exact List.mem_cons_self _ _
  have hrk0 : hasKey (responses.headD []) rk = true := by
    rw [hcons, List.headD_cons]
    obtain ⟨v, a, pr, pa, q, h1, _⟩ := (hall2 r0 hr0).2
    simp [hasKey, h1]
  have hak0 : hasKey (responses.headD []) ak = true := by
    rw [hcons, List.headD_cons]
    exact (hall r0 hr0).1
  have hval := validate_true_of responses rk ak hrk0 hak0
  have hlen : ¬ responses.length = 0 := by
    intro h0
    exact hne (List.length_eq_zero.mp h0)
  have hcount : responses.countP (isSentinelB rk) = 0 := by
    rw [List.countP_eq_zero]
    intro a ha
    simp [(hall2 a ha).1]
  have hFz : F = 0 := by
    rw [hF, hcount]
    simp
  have hfull : ((responses.length : Int) + F) = (responses.length : Int) := by
    rw [hFz]
    ring
  have hfullne : ¬ ((responses.length : Int) + F) = 0 := by
    rw [hfull]
    simpa using hlen
  refine ⟨S, rs, ?_, ?_⟩
  · intro eval_name
    rw [judge_eval responses rk ak eval_name rp ap judger S F rs hlen hval heq,
      if_neg hfullne, hfull]
  · refine forall2_imp_with_mem hfa ?_
    intro a b ha hr
    exact hr.2 (hall2 a ha).1

/-- Witness for C7 amended: a single strict-match success; the record gains
"score" and "judged_content" whatever the pass name. -/
theorem judge_writes_fixed_score_field_witness :
    ∃ S rs,
      (∀ eval_name, judge [c4_r2] none (some "response") "answer" none eval_name as_is as_is STRICT_MATCH none
        = .ok eval_name S (([c4_r2] : List Record).length : Int)
            (S / (((([c4_r2] : List Record).length : Int)) : ℚ)) rs)
      ∧ List.Forall₂ (fun _ b =>
          (∃ q, getVal b "score" = some (.num q))
          ∧ (∃ pr, getVal b "judged_content" = some (.str pr))) [c4_r2] rs :=
  judge_writes_fixed_score_field [c4_r2] "response" "answer" as_is as_is STRICT_MATCH
    (by simp)
    (by
      intro r hr
      have h2 : r = c4_r2 := by simpa using hr
      subst h2
      exact ⟨by decide, ⟨.str "A", .str "A", "A", "A",
        if ("A" : String) = "A" then 1 else 0,
        by decide, by decide, rfl, rfl, by decide, by decide, rfl⟩⟩)

/-- C8: on an empty collection, or when the resolved response key, the
answer key, or a given context key is missing from the first record, judge
returns None (modelled as the invalid result carrying the untouched records)
without doing any per-record work. -/
theorem judge_invalid_returns_none
    (responses : List Record) (query_key self_response_key : Option String)
    (ak : String) (context_key : Option String) (eval_name : String)
    (rp ap : Val → Option String) (judger : String → String → Val → JOut)
    (foreign_response_key : Option String)
    (h : responses = []
      ∨ ∃ first rest2, responses = first :: rest2 ∧
          ((∃ rkey, resolveResponseKey self_response_key foreign_response_key = some rkey
              ∧ hasKey first rkey = false)
           ∨ hasKey first ak = false
           ∨ ∃ c, context_key = some c ∧ hasKey first c = false)) :
    judge responses query_key self_response_key ak context_key eval_name rp ap judger foreign_response_key
      = .invalid responses := by
  rcases h with h0 | ⟨first, rest2, hcons, hbad⟩
  · subst h0
    simp [judge]
  · have hval : _validate_key_names responses self_response_key ak context_key foreign_response_key = false := by
      rcases hbad with ⟨rkey, hres, hmiss⟩ | hmiss | ⟨c, hc, hmiss⟩
      · simp [_validate_key_names, hres, hcons, hmiss]
      · cases hres2 : resolveResponseKey self_response_key foreign_response_key with
        | none => simp [_validate_key_names, hres2]
        | some rk2 => simp [_validate_key_names, hres2, hcons, hmiss]
      · subst hc
        cases hres2 : resolveResponseKey self_response_key foreign_response_key with
        | none => simp [_validate_key_names, hres2]
        | some rk2 =>
          simp only [_validate_key_names, hres2, hcons, List.headD_cons]
          split
          · simp [hmiss]
          · rfl
    have hlen : ¬ responses.length = 0 := by
      rw [hcons]
      simp
    simp [judge, hlen, hval]

def c8_r : Record := [("answer", .str "A")]

/-- Witness for C8: the response field is missing from the only record. -/
theorem judge_invalid_returns_none_witness :
    judge [c8_r] none (some "response") "answer" none "Evaluation" as_is as_is STRICT_MATCH none
      = .invalid [c8_r] :=
  judge_invalid_returns_none [c8_r] none (some "response") "answer" none "Evaluation"
    as_is as_is STRICT_MATCH none
    (Or.inr ⟨c8_r, [], rfl, Or.inl ⟨"response", rfl, by decide⟩⟩)

/-- C9: on a non-empty collection in which every record carries the
transport-failure sentinel, every record is skipped, full_score reaches 0,
and the report line divides by zero (the divByZero outcome) instead of
returning a summary dictionary. -/
theorem judge_all_transport_failures_div_by_zero
    (responses : List Record) (rk ak eval_name : String)
    (rp ap : Val → Option String) (judger : String → String → Val → JOut)
    (hne : responses ≠ [])
    (hsent : ∀ r ∈ responses, isSentinelB rk r = true)
    (hak : ∀ r ∈ responses, (getVal r ak).isSome = true) :
    judge responses none (some rk) ak none eval_name rp ap judger none
      = .divByZero responses := by
  have hall : ∀ r ∈ responses, (getVal r ak).isSome = true ∧
      (isSentinelB rk r = true ∨ Judgeable rk ak rp ap judger r) :=
    fun r hr => ⟨hak r hr, Or.inl (hsent r hr)⟩
  obtain ⟨S, F, rs, heq, hF, hfa⟩ := judgeLoop_spec rk ak rp ap judger responses hall
  obtain ⟨r0, rest0, hcons⟩ := List.exists_cons_of_ne_nil hne
  have hr0 : r0 ∈ responses := by
    rw [hcons]
    exact List.mem_cons_self _ _
  have hrk0 : hasKey (responses.headD []) rk = true := by
    rw [hcons, List.headD_cons]
    have hv : getVal r0 rk = some (.str FALLBACK_ERR_MSG) := by
      simpa [isSentinelB] using hsent r0 hr0
    simp [hasKey, hv]
  have hak0 : hasKey (responses.headD []) ak = true := by
    rw [hcons, List.headD_cons]
    exact hak r0 hr0
  have hval := validate_true_of responses rk ak hrk0 hak0
  have hlen : ¬ responses.length = 0 := by
    intro h0
    exact hne (List.length_eq_zero.mp h0)
  have hcount : responses.countP (isSentinelB rk) = responses.length :=
    List.countP_eq_length.mpr (fun a ha => hsent a ha)
  have hF0 : ((responses.length : Int) + F) = 0 := by
    rw [hF, hcount]
    ring
  have hrs : rs = responses :=
    forall2_eq_with_mem hfa (fun a b ha hr => hr.1 (hsent a ha))
  rw [judge_eval responses rk ak eval_name rp ap judger S F rs hlen hval heq,
    if_pos hF0, hrs]

/-- Witness for C9: one record whose response is the sentinel. -/
theorem judge_all_transport_failures_div_by_zero_witness :
    judge [c4_r1] none (some "response") "answer" none "Evaluation" as_is as_is STRICT_MATCH none
      = .divByZero [c4_r1] :=
  judge_all_transport_failures_div_by_zero [c4_r1] "response" "answer" "Evaluation"
    as_is as_is STRICT_MATCH (by simp)
    (by
      intro r hr
      have h2 : r = c4_r1 := by simpa using hr
      subst h2
      decide)
    (by
      intro r hr
      have h2 : r = c4_r1 := by simpa using hr
      subst h2
      decide)

def c7_record : Record := [("query", .str "q"), ("response", .str "A"), ("answer", .str "A")]

def c7_judged : Record :=
  [("query", .str "q"), ("response", .str "A"), ("answer", .str "A"),
   ("judged_content", .str "A"), ("score", .num 1)]

/-- C7 counterexample: judging the pass named "pass_A" writes the score
under the fixed field name "score" (dataset_models.py lines 476-479), not
under a field named after the evaluation pass; the judged record has no
"pass_A" field. -/
theorem judge_score_field_not_named_after_pass :
    judge [c7_record] none (some "response") "answer" none "pass_A" as_is as_is STRICT_MATCH none
      = .ok "pass_A" 1 1 1 [c7_judged]
  ∧ hasKey c7_judged "pass_A" = false
  ∧ hasKey c7_judged "score" = true := by
  refine ⟨?_, by decide, by decide⟩
  have h1 : getVal c7_record "response" = some (.str "A") := by decide
  have h2 : getVal c7_record "answer" = some (.str "A") := by decide
  have hsingle : _judge_single_resp_obj c7_record "response" "answer" none as_is as_is STRICT_MATCH
      = .ok (1, 0, c7_judged) := by
    have hne1 : ¬ (Val.str "A" = Val.str FALLBACK_ERR_MSG) := by decide
    have hne2 : ¬ (("A" : String) = "") := by decide
    have hm : STRICT_MATCH "A" "A" (.str "") = .score 1 := by
      simp [STRICT_MATCH]
    simp only [_judge_single_resp_obj, h1, h2, resolveContext, as_is]
    rw [if_neg hne1, if_neg hne2, if_neg hne2, hm]
    rfl
  have hloop : judgeLoop "response" "answer" none as_is as_is STRICT_MATCH [c7_record]
      = .ok (1 + 0, 0 + 0, [c7_judged]) := by
    simp only [judgeLoop, hsingle]
  have hval : _validate_key_names [c7_record] (some "response") "answer" none none = true := by
    decide
  have heval := judge_eval [c7_record] "response" "answer" "pass_A" as_is as_is STRICT_MATCH
    (1 + 0) (0 + 0) [c7_judged] (by decide) hval hloop
  rw [heval]
  norm_num
